import Mathlib

/-!
Verification of the mcp-inscription envelope parser, transaction scanner,
transaction cache and content formatter.

The embedding models scripts after decompilation: a witness buffer becomes a
sequence of script tokens, each token being either an opcode (a number, as
bitcoinjs-lib returns opcodes) or a data push (a byte buffer, modelled as a
list of naturals).  Byte strings throughout are modelled as lists of
naturals; UTF-8 decoding of a buffer into a string is modelled as the
identity on the underlying bytes.
-/

/-- A decompiled script token: an opcode number or a data-push buffer. -/
inductive Tok where
  | op (c : Nat)
  | data (b : List Nat)
deriving DecidableEq, Repr

/-- Opcode value of OP_FALSE (same value as OP_0). -/
def OP_FALSE : Nat := 0

/-- Opcode value of OP_IF. -/
def OP_IF : Nat := 99

/-- Opcode value of OP_ENDIF. -/
def OP_ENDIF : Nat := 104

/-- Opcode value of OP_1. -/
def OP_1 : Nat := 81

/-- Bytes of the ASCII protocol tag "ord". -/
def ordBytes : List Nat := [111, 114, 100]

/-- Token equal (in the JavaScript strict-equality sense) to the
OP_IF opcode number. -/
def isOpIfTok : Tok → Bool
  | Tok.op c => c == OP_IF
  | Tok.data _ => false

/-- Token strictly equal to the OP_FALSE opcode number. -/
def isOpFalseTok : Tok → Bool
  | Tok.op c => c == OP_FALSE
  | Tok.data _ => false

/-- Token strictly equal to the OP_ENDIF opcode number. -/
def isOpEndifTok : Tok → Bool
  | Tok.op c => c == OP_ENDIF
  | Tok.data _ => false

/-- Token that is a buffer whose UTF-8 decoding is the protocol tag "ord". -/
def isOrdPushTok : Tok → Bool
  | Tok.op _ => false
  | Tok.data b => b == ordBytes

/-- Token accepted as the explicit content-type field tag: the opcode OP_1 or
the bare number 1 (the source compares against both). -/
def isFieldTagOneTok : Tok → Bool
  | Tok.op c => c == OP_1 || c == 1
  | Tok.data _ => false

/-- Token accepted as the body separator: the OP_0 opcode, or a one-byte
data push whose single byte is zero. -/
def isSepTok : Tok → Bool
  | Tok.op c => c == 0
  | Tok.data b => b.length == 1 && b.headD 1 == 0

/-- Token that is a data push. -/
def isDataTok : Tok → Bool
  | Tok.op _ => false
  | Tok.data _ => true

/-- Bytes of a data-push token, none for an opcode token. -/
def dataOf : Tok → Option (List Nat)
  | Tok.op _ => none
  | Tok.data b => some b

/-- Placeholder returned by an out-of-range array read; it behaves like the
JavaScript undefined for every comparison the parser performs (it is not a
buffer and matches no opcode the parser compares against). -/
def undefTok : Tok := Tok.op 1000000

/-- Array indexing as the parser performs it. -/
def nthTok (toks : List Tok) (i : Nat) : Tok := toks.getD i undefTok

/-- Index-aware list search returning the first index, counting from s, whose
element satisfies the predicate. -/
def findIdxFrom (p : Nat → Tok → Bool) : Nat → List Tok → Option Nat
  | _, [] => none
  | s, t :: ts => if p s t then some s else findIdxFrom p (s + 1) ts

/-- Model of Array.prototype.findIndex over a token list, with none standing
for the JavaScript result -1. -/
def jsFindIndex (p : Nat → Tok → Bool) (l : List Tok) : Option Nat :=
  findIdxFrom p 0 l

/-- Index of the first OP_IF token. -/
def ifIndexOf (toks : List Tok) : Option Nat :=
  jsFindIndex (fun _ t => isOpIfTok t) toks

/-- Marker validation: the first OP_IF must exist, must not be the first
token, and must be immediately preceded by OP_FALSE. -/
def markerIndexOf (toks : List Tok) : Option Nat :=
  match ifIndexOf toks with
  | none => none
  | some i =>
    if i == 0 then none
    else if isOpFalseTok (nthTok toks (i - 1)) then some i
    else none

/-- Index of the first OP_ENDIF token strictly after index i. -/
def endifFrom (toks : List Tok) (i : Nat) : Option Nat :=
  jsFindIndex (fun j t => decide (i < j) && isOpEndifTok t) toks

/-- Index of the first data push decoding to "ord" strictly inside the
window (i, e). -/
def ordPushFrom (toks : List Tok) (i e : Nat) : Option Nat :=
  jsFindIndex (fun j t => decide (i < j) && decide (j < e) && isOrdPushTok t) toks

/-- Content-type field reader, returning the index of the data push holding
the content type together with its bytes: a field-tag-1 opcode followed by a
data push is tried first, then a bare data push. -/
def contentTypeFrom (toks : List Tok) (o e : Nat) : Option (Nat × List Nat) :=
  if decide (o + 1 < e) && isFieldTagOneTok (nthTok toks (o + 1)) then
    if decide (o + 2 < e) && isDataTok (nthTok toks (o + 2)) then
      match nthTok toks (o + 2) with
      | Tok.data b => some (o + 2, b)
      | Tok.op _ => none
    else none
  else
    if decide (o + 1 < e) && isDataTok (nthTok toks (o + 1)) then
      match nthTok toks (o + 1) with
      | Tok.data b => some (o + 1, b)
      | Tok.op _ => none
    else none

/-- Body-separator check on the token right after the content type. -/
def sepFrom (toks : List Tok) (c e : Nat) : Option Nat :=
  if decide (c + 1 < e) && isSepTok (nthTok toks (c + 1)) then some (c + 1)
  else none

/-- Payload-collection loop body, recursing on the number of remaining
iterations: starting at index i, concatenate the bytes of every data push
and skip every other token. -/
def collectPayloadFuel (toks : List Tok) : Nat → Nat → List Nat
  | _, 0 => []
  | i, n + 1 =>
    match nthTok toks i with
    | Tok.data b => b ++ collectPayloadFuel toks (i + 1) n
    | Tok.op _ => collectPayloadFuel toks (i + 1) n

/-- Payload-collection loop: walk indices from i up to (excluding) e,
concatenating the bytes of every data push and skipping every other token. -/
def collectPayload (toks : List Tok) (i e : Nat) : List Nat :=
  collectPayloadFuel toks i (e - i)

/-- Envelope extraction downstream of a validated marker index i: find the
closing OP_ENDIF, the "ord" tag push, the content type, the body separator,
then collect the payload. -/
def extractFrom (toks : List Tok) (i : Nat) : Option (List Nat × List Nat) :=
  match endifFrom toks i with
  | none => none
  | some e =>
    match ordPushFrom toks i e with
    | none => none
    | some o =>
      match contentTypeFrom toks o e with
      | none => none
      | some (c, ct) =>
        if ct = [] then none
        else
          match sepFrom toks c e with
          | none => none
          | some s => some (ct, collectPayload toks (s + 1) e)

/-- Model of OrdinalsClient.extractOrdinalContent on a decompiled script:
returns the declared content type and the payload bytes, or none when the
buffer holds no inscription envelope. -/
def extractOrdinalContent (toks : List Tok) : Option (List Nat × List Nat) :=
  match markerIndexOf toks with
  | none => none
  | some i => extractFrom toks i

/-- Model of the full parse of one witness buffer: a buffer is represented by
its decompilation result, none standing for a buffer bitcoinjs-lib fails to
decompile (the source then returns null before any token processing). -/
def parseEnvelope (decompiled : Option (List Tok)) : Option (List Nat × List Nat) :=
  decompiled.bind extractOrdinalContent

theorem findIdxFrom_spec {p : Nat → Tok → Bool} :
    ∀ (l : List Tok) (s i : Nat), findIdxFrom p s l = some i →
      s ≤ i ∧ i - s < l.length ∧ p i (l.getD (i - s) undefTok) = true ∧
      ∀ j, s ≤ j → j < i → p j (l.getD (j - s) undefTok) = false := by
  intro l
  induction l with
  | nil => intro s i h; simp [findIdxFrom] at h
  | cons t ts ih =>
    intro s i h
    by_cases hp : p s t = true
    · have hi : s = i := by simpa [findIdxFrom, hp] using h
      subst hi
      refine ⟨Nat.le_refl s, by simp, by simpa using hp, ?_⟩
      intro j hj1 hj2
      omega
    · have hp' : p s t = false := by
        revert hp; cases p s t <;> simp
      have h' : findIdxFrom p (s + 1) ts = some i := by
        simpa [findIdxFrom, hp'] using h
      obtain ⟨h1, h2, h3, h4⟩ := ih (s + 1) i h'
      have hsplit : i - s = (i - (s + 1)) + 1 := by omega
      refine ⟨by omega, by simp; omega, ?_, ?_⟩
      · rw [hsplit, List.getD_cons_succ]
        exact h3
      · intro j hj1 hj2
        rcases Nat.eq_or_lt_of_le hj1 with hj | hj
        · subst hj
          simpa using hp'
        · have hjsplit : j - s = (j - (s + 1)) + 1 := by omega
          rw [hjsplit, List.getD_cons_succ]
          exact h4 j (by omega) hj2

theorem jsFindIndex_spec {p : Nat → Tok → Bool} {l : List Tok} {i : Nat}
    (h : jsFindIndex p l = some i) :
    i < l.length ∧ p i (nthTok l i) = true ∧
      ∀ j, j < i → p j (nthTok l j) = false := by
  obtain ⟨_, h2, h3, h4⟩ := findIdxFrom_spec l 0 i h
  refine ⟨by simpa using h2, by simpa [nthTok] using h3, ?_⟩
  intro j hj
  simpa [nthTok] using h4 j (Nat.zero_le j) hj

theorem markerIndexOf_spec {toks : List Tok} {i : Nat}
    (h : markerIndexOf toks = some i) :
    ifIndexOf toks = some i ∧ i ≠ 0 ∧ isOpFalseTok (nthTok toks (i - 1)) = true := by
  unfold markerIndexOf at h
  cases hif : ifIndexOf toks with
  | none => rw [hif] at h; simp at h
  | some k =>
    rw [hif] at h
    by_cases hk : k = 0
    · simp [hk] at h
    · by_cases hfa : isOpFalseTok (nthTok toks (k - 1)) = true
      · have hki : k = i := by simpa [hk, hfa] using h
        subst hki
        exact ⟨rfl, hk, hfa⟩
      · have hfa' : isOpFalseTok (nthTok toks (k - 1)) = false := by
          revert hfa; cases isOpFalseTok (nthTok toks (k - 1)) <;> simp
        simp [hk, hfa'] at h

theorem endifFrom_spec {toks : List Tok} {i e : Nat}
    (h : endifFrom toks i = some e) :
    i < e ∧ e < toks.length ∧ isOpEndifTok (nthTok toks e) = true := by
  obtain ⟨h1, h2, _⟩ := jsFindIndex_spec h
  have h2' := h2
  simp only [Bool.and_eq_true, decide_eq_true_eq] at h2'
  exact ⟨h2'.1, h1, h2'.2⟩

theorem sepFrom_spec {toks : List Tok} {c e s : Nat}
    (h : sepFrom toks c e = some s) :
    s = c + 1 ∧ s < e ∧ isSepTok (nthTok toks s) = true := by
  unfold sepFrom at h
  by_cases hc : (decide (c + 1 < e) && isSepTok (nthTok toks (c + 1))) = true
  · rw [if_pos hc] at h
    have hs : c + 1 = s := Option.some.inj h
    simp only [Bool.and_eq_true, decide_eq_true_eq] at hc
    subst hs
    exact ⟨rfl, hc.1, hc.2⟩
  · rw [if_neg hc] at h
    simp at h

theorem collectPayloadFuel_eq_slice (toks : List Tok) :
    ∀ (n i : Nat), i + n ≤ toks.length →
      collectPayloadFuel toks i n
        = (((toks.drop i).take n).filterMap dataOf).flatten := by
  intro n
  induction n with
  | zero => intro i _; simp [collectPayloadFuel]
  | succ n ih =>
    intro i hle
    have hi : i < toks.length := by omega
    have hdrop : toks.drop i = toks[i] :: toks.drop (i + 1) :=
      List.drop_eq_getElem_cons hi
    have hnth : nthTok toks i = toks[i] := List.getD_eq_getElem toks undefTok hi
    rw [hdrop, List.take_succ_cons]
    cases htok : toks[i] with
    | op c =>
      simp only [collectPayloadFuel, hnth, htok, List.filterMap_cons, dataOf]
      exact ih (i + 1) (by omega)
    | data b =>
      simp only [collectPayloadFuel, hnth, htok, List.filterMap_cons, dataOf,
        List.flatten_cons]
      rw [ih (i + 1) (by omega)]

theorem collectPayload_eq_slice (toks : List Tok) (i e : Nat)
    (h1 : i ≤ e) (h2 : e ≤ toks.length) :
    collectPayload toks i e
      = (((toks.drop i).take (e - i)).filterMap dataOf).flatten := by
  unfold collectPayload
  exact collectPayloadFuel_eq_slice toks (e - i) i (by omega)

/-- C1: every successful parse returns as payload exactly the concatenation,
in token order, of the bytes of the data-push tokens strictly between the
body separator and the closing OP_ENDIF; conversely, once the marker, the
closing OP_ENDIF, the "ord" tag, a non-empty content type and the separator
are found, the parse succeeds with that concatenation as payload, so a
non-data-push token in the payload region is skipped and neither fails the
parse nor alters the payload. -/
theorem extracted_payload_is_concat_of_data_pushes : ∀ toks : List Tok,
    (∀ ct pl, extractOrdinalContent toks = some (ct, pl) →
      ∃ i e o c s,
        markerIndexOf toks = some i ∧
        endifFrom toks i = some e ∧
        ordPushFrom toks i e = some o ∧
        contentTypeFrom toks o e = some (c, ct) ∧
        sepFrom toks c e = some s ∧
        isOpEndifTok (nthTok toks e) = true ∧
        pl = (((toks.drop (s + 1)).take (e - (s + 1))).filterMap dataOf).flatten) ∧
    (∀ i e o c ct s,
      markerIndexOf toks = some i →
      endifFrom toks i = some e →
      ordPushFrom toks i e = some o →
      contentTypeFrom toks o e = some (c, ct) →
      ct ≠ [] →
      sepFrom toks c e = some s →
      extractOrdinalContent toks
        = some (ct, (((toks.drop (s + 1)).take (e - (s + 1))).filterMap dataOf).flatten)) := by
  intro toks
  constructor
  · intro ct pl h
    unfold extractOrdinalContent at h
    cases hm : markerIndexOf toks with
    | none => rw [hm] at h; simp at h
    | some i =>
      simp only [hm] at h
      unfold extractFrom at h
      cases he : endifFrom toks i with
      | none => rw [he] at h; simp at h
      | some e =>
        simp only [he] at h
        cases ho : ordPushFrom toks i e with
        | none => rw [ho] at h; simp at h
        | some o =>
          simp only [ho] at h
          cases hct : contentTypeFrom toks o e with
          | none => rw [hct] at h; simp at h
          | some p =>
            obtain ⟨c, ctb⟩ := p
            simp only [hct] at h
            by_cases hemp : ctb = []
            · simp [hemp] at h
            · simp only [if_neg hemp] at h
              cases hs : sepFrom toks c e with
              | none => rw [hs] at h; simp at h
              | some s =>
                simp only [hs, Option.some.injEq, Prod.mk.injEq] at h
                obtain ⟨rfl, rfl⟩ := h
                have hep := endifFrom_spec he
                have hsp := sepFrom_spec hs
                exact ⟨i, e, o, c, s, rfl, he, ho, hct, hs, hep.2.2,
                  (collectPayload_eq_slice toks (s + 1) e (by omega) (by omega))⟩
  · intro i e o c ct s hm he ho hct hemp hs
    have hep := endifFrom_spec he
    have hsp := sepFrom_spec hs
    simp only [extractOrdinalContent, extractFrom, hm, he, ho, hct, if_neg hemp, hs]
    rw [collectPayload_eq_slice toks (s + 1) e (by omega) (by omega)]

/-- Witness for C1 on a concrete envelope containing a stray opcode inside
the payload region: the payload is the concatenation of the two data pushes
around it. -/
theorem extracted_payload_witness :
    extractOrdinalContent
      [Tok.op 0, Tok.op 99, Tok.data ordBytes, Tok.op 81, Tok.data [116, 101],
       Tok.op 0, Tok.data [104], Tok.op 97, Tok.data [105], Tok.op 104]
      = some ([116, 101], [104, 105]) := by
  have h := (extracted_payload_is_concat_of_data_pushes
      [Tok.op 0, Tok.op 99, Tok.data ordBytes, Tok.op 81, Tok.data [116, 101],
       Tok.op 0, Tok.data [104], Tok.op 97, Tok.data [105], Tok.op 104]).2
      1 9 2 4 [116, 101] 5 (by decide) (by decide) (by decide) (by decide)
      (by decide) (by decide)
  simpa using h

/-- Marker search following the specification wording, for comparison with
the source: the first index i whose token is OP_IF and whose immediately
preceding token is OP_FALSE. -/
def markerIndexSpec (toks : List Tok) : Option Nat :=
  jsFindIndex
    (fun i t => decide (0 < i) && isOpIfTok t && isOpFalseTok (nthTok toks (i - 1)))
    toks

/-- Parse variant whose marker step follows the specification wording, the
remaining steps being those of the source. -/
def extractOrdinalContentSpec (toks : List Tok) : Option (List Nat × List Nat) :=
  match markerIndexSpec toks with
  | none => none
  | some i => extractFrom toks i

/-- C2 counterexample: on a script whose first OP_IF is preceded by OP_1 and
whose second OP_IF forms a well-formed envelope with a preceding OP_FALSE,
the source parser returns none, while a parser that locates the first
(OP_FALSE, OP_IF) pair — as the claim describes — accepts the envelope. -/
theorem marker_search_differs_from_claim :
    extractOrdinalContent
      [Tok.op 81, Tok.op 99, Tok.op 0, Tok.op 99, Tok.data ordBytes, Tok.op 81,
       Tok.data [116], Tok.op 0, Tok.data [104], Tok.op 104] = none ∧
    markerIndexSpec
      [Tok.op 81, Tok.op 99, Tok.op 0, Tok.op 99, Tok.data ordBytes, Tok.op 81,
       Tok.data [116], Tok.op 0, Tok.data [104], Tok.op 104] = some 3 ∧
    extractOrdinalContentSpec
      [Tok.op 81, Tok.op 99, Tok.op 0, Tok.op 99, Tok.data ordBytes, Tok.op 81,
       Tok.data [116], Tok.op 0, Tok.data [104], Tok.op 104]
      = some ([116], [104]) := by
  refine ⟨by decide, by decide, by decide⟩

/-- C2 amended: the parser locates the first OP_IF token and requires the
token immediately before it to be OP_FALSE; if there is no OP_IF, the first
OP_IF is at index 0, or its predecessor is not OP_FALSE, the parse returns
none.  In particular every script whose token sequence nowhere contains the
adjacent pair (OP_FALSE, OP_IF) parses to none. -/
theorem marker_rejects_when_first_opif_unpaired : ∀ toks : List Tok,
    ((ifIndexOf toks = none ∨ ifIndexOf toks = some 0 ∨
        (∃ i, ifIndexOf toks = some i ∧ isOpFalseTok (nthTok toks (i - 1)) = false)) →
      extractOrdinalContent toks = none) ∧
    ((∀ j, 0 < j → j < toks.length →
        ¬(isOpIfTok (nthTok toks j) = true ∧ isOpFalseTok (nthTok toks (j - 1)) = true)) →
      extractOrdinalContent toks = none) := by
  intro toks
  constructor
  · intro h
    have hm : markerIndexOf toks = none := by
      rcases h with h | h | ⟨i, hi, hfa⟩
      · simp [markerIndexOf, h]
      · simp [markerIndexOf, h]
      · by_cases hz : i = 0
        · simp [markerIndexOf, hi, hz]
        · simp [markerIndexOf, hi, hz, hfa]
    simp [extractOrdinalContent, hm]
  · intro h
    cases hm : markerIndexOf toks with
    | none => simp [extractOrdinalContent, hm]
    | some i =>
      obtain ⟨hif, hz, hfa⟩ := markerIndexOf_spec hm
      obtain ⟨hlt, hp, _⟩ := jsFindIndex_spec hif
      exact absurd ⟨hp, hfa⟩ (h i (by omega) hlt)

/-- Witness for the amended C2: a lone OP_IF at index 0 is rejected, and a
script with an OP_IF whose predecessor is not OP_FALSE and with no adjacent
(OP_FALSE, OP_IF) pair is rejected. -/
theorem marker_rejects_witness :
    extractOrdinalContent [Tok.op 99] = none ∧
    extractOrdinalContent [Tok.op 5, Tok.op 99, Tok.op 104] = none := by
  constructor
  · exact (marker_rejects_when_first_opif_unpaired [Tok.op 99]).1
      (Or.inr (Or.inl (by decide)))
  · exact (marker_rejects_when_first_opif_unpaired [Tok.op 5, Tok.op 99, Tok.op 104]).2
      (by
        intro j h1 h2 hc
        simp only [List.length_cons, List.length_nil] at h2
        have hj : j = 1 ∨ j = 2 := by omega
        rcases hj with rfl | rfl
        · exact absurd hc (by decide)
        · exact absurd hc (by decide))

/-- Content-type field reader following the specification wording: inside
the envelope window, the token right after the "ord" tag is examined; a
field-tag-1 opcode followed by a data push is accepted first, otherwise a
bare data push holding the content type directly. -/
def readContentTypeSpec (toks : List Tok) (o e : Nat) : Option (Nat × List Nat) :=
  if o + 1 < e then
    match toks[o + 1]? with
    | some (Tok.op c) =>
      if c = OP_1 ∨ c = 1 then
        if o + 2 < e then
          match toks[o + 2]? with
          | some (Tok.data b) => some (o + 2, b)
          | _ => none
        else none
      else none
    | some (Tok.data b) => some (o + 1, b)
    | none => none
  else none

theorem contentTypeFrom_eq_spec (toks : List Tok) (o e : Nat)
    (hle : e ≤ toks.length) :
    contentTypeFrom toks o e = readContentTypeSpec toks o e := by
  by_cases h1 : o + 1 < e
  · have hlen1 : o + 1 < toks.length := by omega
    have hg1 : toks[o + 1]? = some (nthTok toks (o + 1)) := by
      rw [nthTok, List.getD_eq_getElem toks undefTok hlen1]
      exact List.getElem?_eq_getElem hlen1
    cases ht1 : nthTok toks (o + 1) with
    | data b =>
      simp [contentTypeFrom, readContentTypeSpec, h1, hg1, ht1,
        isFieldTagOneTok, isDataTok]
    | op c =>
      by_cases hc : c = OP_1 ∨ c = 1
      · have hftag : isFieldTagOneTok (Tok.op c) = true := by
          rcases hc with hc | hc <;> simp [isFieldTagOneTok, hc]
        by_cases h2 : o + 2 < e
        · have hlen2 : o + 2 < toks.length := by omega
          have hg2 : toks[o + 2]? = some (nthTok toks (o + 2)) := by
            rw [nthTok, List.getD_eq_getElem toks undefTok hlen2]
            exact List.getElem?_eq_getElem hlen2
          cases ht2 : nthTok toks (o + 2) with
          | data b =>
            simp [contentTypeFrom, readContentTypeSpec, h1, h2, hg1, hg2, ht1, ht2,
              hftag, hc, isDataTok]
          | op d =>
            simp [contentTypeFrom, readContentTypeSpec, h1, h2, hg1, hg2, ht1, ht2,
              hftag, hc, isDataTok]
        · simp [contentTypeFrom, readContentTypeSpec, h1, h2, hg1, ht1, hftag, hc]
      · have hftag : isFieldTagOneTok (Tok.op c) = false := by
          simp only [isFieldTagOneTok, Bool.or_eq_false_iff, beq_eq_false_iff_ne]
          push_neg at hc
          exact ⟨hc.1, hc.2⟩
        simp [contentTypeFrom, readContentTypeSpec, h1, hg1, ht1, hftag, hc,
          isDataTok]
  · simp [contentTypeFrom, readContentTypeSpec, h1]

/-- C3: right after the "ord" tag the parser reads the content type exactly
as the specification describes — a field-tag-1 opcode followed by a data
push is tried first, then a bare data push — and when neither encoding
yields a content type the parse returns none. -/
theorem content_type_read_by_two_encodings : ∀ (toks : List Tok) (i e o : Nat),
    endifFrom toks i = some e →
    ordPushFrom toks i e = some o →
    contentTypeFrom toks o e = readContentTypeSpec toks o e ∧
    (readContentTypeSpec toks o e = none → extractFrom toks i = none) := by
  intro toks i e o he ho
  have hle : e ≤ toks.length := le_of_lt (endifFrom_spec he).2.1
  have heq := contentTypeFrom_eq_spec toks o e hle
  refine ⟨heq, ?_⟩
  intro hn
  simp only [extractFrom, he, ho, heq, hn]

/-- Witness for C3: the two-encoding equivalence evaluated on a concrete
tagged envelope, and a concrete envelope with no content-type field whose
parse returns none. -/
theorem content_type_read_witness :
    contentTypeFrom
      [Tok.op 0, Tok.op 99, Tok.data ordBytes, Tok.op 81, Tok.data [116, 101],
       Tok.op 0, Tok.data [104, 105], Tok.op 104] 2 7
      = readContentTypeSpec
        [Tok.op 0, Tok.op 99, Tok.data ordBytes, Tok.op 81, Tok.data [116, 101],
         Tok.op 0, Tok.data [104, 105], Tok.op 104] 2 7 ∧
    extractFrom [Tok.op 0, Tok.op 99, Tok.data ordBytes, Tok.op 104] 1 = none := by
  constructor
  · exact (content_type_read_by_two_encodings
      [Tok.op 0, Tok.op 99, Tok.data ordBytes, Tok.op 81, Tok.data [116, 101],
       Tok.op 0, Tok.data [104, 105], Tok.op 104] 1 7 2 (by decide) (by decide)).1
  · exact (content_type_read_by_two_encodings
      [Tok.op 0, Tok.op 99, Tok.data ordBytes, Tok.op 104] 1 3 2
      (by decide) (by decide)).2 (by decide)

/-- Checked array read: the parser instrumented so that an out-of-range
access fails instead of yielding a placeholder. -/
def nthTokE (toks : List Tok) (i : Nat) : Except String Tok :=
  if i < toks.length then Except.ok (nthTok toks i)
  else Except.error "index out of range"

/-- Marker validation with checked array accesses. -/
def markerIndexOfE (toks : List Tok) : Except String (Option Nat) :=
  match ifIndexOf toks with
  | none => Except.ok none
  | some i =>
    if i == 0 then Except.ok none
    else do
      let t ← nthTokE toks (i - 1)
      if isOpFalseTok t then pure (some i) else pure none

/-- Content-type reader with checked array accesses. -/
def contentTypeFromE (toks : List Tok) (o e : Nat) :
    Except String (Option (Nat × List Nat)) := do
  let tagged ←
    if o + 1 < e then do
      let t ← nthTokE toks (o + 1)
      pure (isFieldTagOneTok t)
    else pure false
  if tagged then
    if o + 2 < e then do
      let t2 ← nthTokE toks (o + 2)
      match t2 with
      | Tok.data b => pure (some (o + 2, b))
      | Tok.op _ => pure none
    else pure none
  else
    if o + 1 < e then do
      let t ← nthTokE toks (o + 1)
      match t with
      | Tok.data b => pure (some (o + 1, b))
      | Tok.op _ => pure none
    else pure none

/-- Separator check with checked array accesses. -/
def sepFromE (toks : List Tok) (c e : Nat) : Except String (Option Nat) :=
  if c + 1 < e then do
    let t ← nthTokE toks (c + 1)
    if isSepTok t then pure (some (c + 1)) else pure none
  else pure none

/-- Payload loop with checked array accesses. -/
def collectPayloadFuelE (toks : List Tok) : Nat → Nat → Except String (List Nat)
  | _, 0 => pure []
  | i, n + 1 => do
    let t ← nthTokE toks i
    match t with
    | Tok.data b => do
      let rest ← collectPayloadFuelE toks (i + 1) n
      pure (b ++ rest)
    | Tok.op _ => collectPayloadFuelE toks (i + 1) n


/-- Envelope extraction downstream of the marker with every array access
checked. -/
def extractFromE (toks : List Tok) (i : Nat) :
    Except String (Option (List Nat × List Nat)) :=
  match endifFrom toks i with
  | none => pure none
  | some e =>
    match ordPushFrom toks i e with
    | none => pure none
    | some o => do
      let ctr ← contentTypeFromE toks o e
      match ctr with
      | none => pure none
      | some (c, ct) =>
        if ct = [] then pure none
        else do
          let sr ← sepFromE toks c e
          match sr with
          | none => pure none
          | some s => do
            let pl ← collectPayloadFuelE toks (s + 1) (e - (s + 1))
            pure (some (ct, pl))

/-- Parse with every array access checked. -/
def extractOrdinalContentE (toks : List Tok) :
    Except String (Option (List Nat × List Nat)) := do
  let mi ← markerIndexOfE toks
  match mi with
  | none => pure none
  | some i => extractFromE toks i

theorem okBind {α β : Type} (a : α) (f : α → Except String β) :
    (Except.ok a : Except String α) >>= f = f a := rfl

theorem pureExcept {α : Type} (a : α) : (pure a : Except String α) = Except.ok a := rfl

theorem markerIndexOfE_ok (toks : List Tok) :
    markerIndexOfE toks = Except.ok (markerIndexOf toks) := by
  cases hif : ifIndexOf toks with
  | none => simp [markerIndexOfE, markerIndexOf, hif]
  | some i =>
    by_cases hz : i = 0
    · simp [markerIndexOfE, markerIndexOf, hif, hz]
    · have hlt : i < toks.length := (jsFindIndex_spec hif).1
      have hacc : nthTokE toks (i - 1) = Except.ok (nthTok toks (i - 1)) := by
        unfold nthTokE
        rw [if_pos (by omega)]
      by_cases hfa : isOpFalseTok (nthTok toks (i - 1)) = true
      · simp [markerIndexOfE, markerIndexOf, hif, hz, hacc, hfa, okBind, pureExcept]
      · have hfa' : isOpFalseTok (nthTok toks (i - 1)) = false := by
          revert hfa; cases isOpFalseTok (nthTok toks (i - 1)) <;> simp
        simp [markerIndexOfE, markerIndexOf, hif, hz, hacc, hfa', okBind, pureExcept]

theorem contentTypeFromE_ok (toks : List Tok) (o e : Nat) (hle : e ≤ toks.length) :
    contentTypeFromE toks o e = Except.ok (contentTypeFrom toks o e) := by
  by_cases h1 : o + 1 < e
  · have hacc1 : nthTokE toks (o + 1) = Except.ok (nthTok toks (o + 1)) := by
      unfold nthTokE
      rw [if_pos (by omega)]
    by_cases hft : isFieldTagOneTok (nthTok toks (o + 1)) = true
    · by_cases h2 : o + 2 < e
      · have hacc2 : nthTokE toks (o + 2) = Except.ok (nthTok toks (o + 2)) := by
          unfold nthTokE
          rw [if_pos (by omega)]
        cases ht2 : nthTok toks (o + 2) with
        | op d =>
          simp [contentTypeFromE, contentTypeFrom, h1, h2, hacc1, hacc2, hft, ht2,
            isDataTok, okBind, pureExcept]
        | data b =>
          simp [contentTypeFromE, contentTypeFrom, h1, h2, hacc1, hacc2, hft, ht2,
            isDataTok, okBind, pureExcept]
      · simp [contentTypeFromE, contentTypeFrom, h1, h2, hacc1, hft, okBind, pureExcept]
    · have hft' : isFieldTagOneTok (nthTok toks (o + 1)) = false := by
        revert hft; cases isFieldTagOneTok (nthTok toks (o + 1)) <;> simp
      cases ht1 : nthTok toks (o + 1) with
      | op d =>
        have hftd : isFieldTagOneTok (Tok.op d) = false := ht1 ▸ hft'
        simp [contentTypeFromE, contentTypeFrom, h1, hacc1, hftd, ht1, isDataTok,
          okBind, pureExcept]
      | data b =>
        simp [contentTypeFromE, contentTypeFrom, h1, hacc1, isFieldTagOneTok, ht1,
          isDataTok, okBind, pureExcept]
  · simp [contentTypeFromE, contentTypeFrom, h1, okBind, pureExcept]

theorem sepFromE_ok (toks : List Tok) (c e : Nat) (hle : e ≤ toks.length) :
    sepFromE toks c e = Except.ok (sepFrom toks c e) := by
  by_cases h1 : c + 1 < e
  · have hacc : nthTokE toks (c + 1) = Except.ok (nthTok toks (c + 1)) := by
      unfold nthTokE
      rw [if_pos (by omega)]
    by_cases hsep : isSepTok (nthTok toks (c + 1)) = true
    · simp [sepFromE, sepFrom, h1, hacc, hsep, okBind, pureExcept]
    · have hsep' : isSepTok (nthTok toks (c + 1)) = false := by
        revert hsep; cases isSepTok (nthTok toks (c + 1)) <;> simp
      simp [sepFromE, sepFrom, h1, hacc, hsep', okBind, pureExcept]
  · simp [sepFromE, sepFrom, h1, pureExcept]

theorem collectPayloadFuelE_ok (toks : List Tok) :
    ∀ (n i : Nat), i + n ≤ toks.length →
      collectPayloadFuelE toks i n = Except.ok (collectPayloadFuel toks i n) := by
  intro n
  induction n with
  | zero => intro i _; rfl
  | succ n ih =>
    intro i hle
    have hacc : nthTokE toks i = Except.ok (nthTok toks i) := by
      unfold nthTokE
      rw [if_pos (by omega)]
    cases ht : nthTok toks i with
    | op d =>
      simp [collectPayloadFuelE, collectPayloadFuel, hacc, ht, okBind, pureExcept,
        ih (i + 1) (by omega)]
    | data b =>
      simp [collectPayloadFuelE, collectPayloadFuel, hacc, ht, okBind, pureExcept,
        ih (i + 1) (by omega)]

theorem extractFromE_ok (toks : List Tok) (i : Nat) :
    extractFromE toks i = Except.ok (extractFrom toks i) := by
  cases he : endifFrom toks i with
  | none => simp [extractFromE, extractFrom, he, pureExcept]
  | some e =>
    have hle : e ≤ toks.length := le_of_lt (endifFrom_spec he).2.1
    cases ho : ordPushFrom toks i e with
    | none => simp [extractFromE, extractFrom, he, ho, pureExcept]
    | some o =>
      have hctE := contentTypeFromE_ok toks o e hle
      cases hct : contentTypeFrom toks o e with
      | none => simp [extractFromE, extractFrom, he, ho, hctE, hct, okBind, pureExcept]
      | some p =>
        obtain ⟨c, ct⟩ := p
        by_cases hemp : ct = []
        · simp [extractFromE, extractFrom, he, ho, hctE, hct, hemp, okBind, pureExcept]
        · have hsE := sepFromE_ok toks c e hle
          cases hs : sepFrom toks c e with
          | none =>
            simp [extractFromE, extractFrom, he, ho, hctE, hct, hemp, hsE, hs,
              okBind, pureExcept]
          | some s =>
            have hsp := sepFrom_spec hs
            have hplE := collectPayloadFuelE_ok toks (e - (s + 1)) (s + 1) (by omega)
            simp [extractFromE, extractFrom, he, ho, hctE, hct, hemp, hsE, hs, hplE,
              collectPayload, okBind, pureExcept]

/-- C4: the envelope parser is total over arbitrary token sequences — with
every array access checked, the parse never reaches the failure state, and
every malformed input resolves to the ordinary "no envelope" result of the
parser rather than to a raised error. -/
theorem parser_never_fails_internally : ∀ toks : List Tok,
    extractOrdinalContentE toks = Except.ok (extractOrdinalContent toks) := by
  intro toks
  cases hm : markerIndexOf toks with
  | none =>
    simp [extractOrdinalContentE, extractOrdinalContent, markerIndexOfE_ok, hm,
      okBind, pureExcept]
  | some i =>
    simp [extractOrdinalContentE, extractOrdinalContent, markerIndexOfE_ok, hm,
      extractFromE_ok, okBind, pureExcept]

/-- One transaction input as the scanner consumes it: its outpoint fields and
its witness stack.  Each witness item is a buffer, modelled by its
decompilation result; a missing witness array is none.  Fields of the source
input not read by the scanner are omitted. -/
structure TxVin where
  txid : List Nat
  vout : Nat
  witness : Option (List (Option (List Tok)))
deriving DecidableEq, Repr

/-- One extracted inscription: declared content type, payload, and the
source position recorded by the scanner. -/
structure ExtractedOrdinal where
  contentType : List Nat
  content : List Nat
  inputIndex : Nat
  witnessIndex : Nat
  txid : List Nat
  vout : Nat
deriving DecidableEq, Repr

/-- Inner scan loop over one input's witness stack: parse each item in
order, appending every successful parse tagged with the enclosing input
index and the item's witness index. -/
def witnessFold (inputIndex : Nat) (input : TxVin) (ws : List (Option (List Tok)))
    (acc : List ExtractedOrdinal) : List ExtractedOrdinal × Nat :=
  ws.foldl
    (fun (acc2 : List ExtractedOrdinal × Nat) (w : Option (List Tok)) =>
      match parseEnvelope w with
      | some ex =>
        (acc2.1 ++
          [ExtractedOrdinal.mk ex.1 ex.2 inputIndex acc2.2 input.txid input.vout],
         acc2.2 + 1)
      | none => (acc2.1, acc2.2 + 1))
    (acc, 0)

/-- Outer scan loop body: one input is processed only when its witness array
is present and non-empty. -/
def inputFoldStep (acc : List ExtractedOrdinal × Nat) (input : TxVin) :
    List ExtractedOrdinal × Nat :=
  match input.witness with
  | none => (acc.1, acc.2 + 1)
  | some ws =>
    if 0 < ws.length then ((witnessFold acc.2 input ws acc.1).1, acc.2 + 1)
    else (acc.1, acc.2 + 1)

/-- Model of OrdinalsClient.extractAllOrdinals: walk every input, and inside
each input every witness item, parsing each item and appending every
successful parse, tagged with its input and witness indices, to the result
in visit order. -/
def extractAllOrdinals (vins : List TxVin) : List ExtractedOrdinal :=
  (vins.foldl inputFoldStep (([] : List ExtractedOrdinal), 0)).1

/-- Index-aware filterMap, used to state what the nested scan loops compute. -/
def idxFilterMap {α β : Type} (f : Nat → α → Option β) : Nat → List α → List β
  | _, [] => []
  | i, a :: as =>
    match f i a with
    | some b => b :: idxFilterMap f (i + 1) as
    | none => idxFilterMap f (i + 1) as

/-- Index-aware map. -/
def idxMap {α β : Type} (f : Nat → α → β) : Nat → List α → List β
  | _, [] => []
  | i, a :: as => f i a :: idxMap f (i + 1) as

/-- Envelopes contributed by one input: its witness items in stack order,
each successful parse tagged with the input and witness indices. -/
def inputEnvelopes (inputIndex : Nat) (input : TxVin) : List ExtractedOrdinal :=
  match input.witness with
  | none => []
  | some ws =>
    idxFilterMap
      (fun wi w =>
        (parseEnvelope w).map
          (fun ex => ExtractedOrdinal.mk ex.1 ex.2 inputIndex wi input.txid input.vout))
      0 ws

/-- In-order traversal of the whole transaction starting at a given input
index. -/
def scanSpecFrom (s : Nat) (vins : List TxVin) : List ExtractedOrdinal :=
  (idxMap inputEnvelopes s vins).flatten

/-- Declarative description of the scan: all inputs in order, each
contributing its envelopes in witness order. -/
def scanSpec (vins : List TxVin) : List ExtractedOrdinal :=
  scanSpecFrom 0 vins

/-- Scan order on tags: earlier input, or same input and earlier witness
item. -/
def envBefore (x y : ExtractedOrdinal) : Prop :=
  x.inputIndex < y.inputIndex ∨
    (x.inputIndex = y.inputIndex ∧ x.witnessIndex < y.witnessIndex)

theorem foldl_push_idx {α β : Type} (f : Nat → α → Option β)
    (g : (List β × Nat) → α → (List β × Nat))
    (hg : ∀ p a, g p a =
      match f p.2 a with
      | some b => (p.1 ++ [b], p.2 + 1)
      | none => (p.1, p.2 + 1)) :
    ∀ (l : List α) (acc : List β) (i : Nat),
      l.foldl g (acc, i) = (acc ++ idxFilterMap f i l, i + l.length) := by
  intro l
  induction l with
  | nil => intro acc i; simp [idxFilterMap]
  | cons a as ih =>
    intro acc i
    simp only [List.foldl_cons, hg]
    cases hf : f i a with
    | some b =>
      simp only [hf]
      rw [ih (acc ++ [b]) (i + 1)]
      have harith : i + 1 + as.length = i + (as.length + 1) := by omega
      rw [harith]
      simp [idxFilterMap, hf, List.append_assoc]
    | none =>
      simp only [hf]
      rw [ih acc (i + 1)]
      have harith : i + 1 + as.length = i + (as.length + 1) := by omega
      rw [harith]
      simp [idxFilterMap, hf]

theorem witnessFold_eq (ii : Nat) (input : TxVin) (ws : List (Option (List Tok)))
    (acc : List ExtractedOrdinal) :
    witnessFold ii input ws acc
      = (acc ++ idxFilterMap
          (fun wi w =>
            (parseEnvelope w).map
              (fun ex => ExtractedOrdinal.mk ex.1 ex.2 ii wi input.txid input.vout))
          0 ws,
         ws.length) := by
  unfold witnessFold
  rw [foldl_push_idx
    (fun wi w =>
      (parseEnvelope w).map
        (fun ex => ExtractedOrdinal.mk ex.1 ex.2 ii wi input.txid input.vout))
    _
    (by
      intro p a
      cases hpe : parseEnvelope a with
      | none => simp [hpe]
      | some ex => simp [hpe])
    ws acc 0]
  simp

theorem inputFoldStep_eq (acc : List ExtractedOrdinal) (i : Nat) (v : TxVin) :
    inputFoldStep (acc, i) v = (acc ++ inputEnvelopes i v, i + 1) := by
  unfold inputFoldStep inputEnvelopes
  cases hw : v.witness with
  | none => simp
  | some ws =>
    by_cases hlen : 0 < ws.length
    · simp [hlen, witnessFold_eq]
    · have hnil : ws = [] := List.length_eq_zero.mp (by omega)
      subst hnil
      simp [idxFilterMap]

theorem foldl_inputs (vins : List TxVin) :
    ∀ (acc : List ExtractedOrdinal) (i : Nat),
      vins.foldl inputFoldStep (acc, i)
        = (acc ++ scanSpecFrom i vins, i + vins.length) := by
  induction vins with
  | nil => intro acc i; simp [scanSpecFrom, idxMap]
  | cons v vs ih =>
    intro acc i
    simp only [List.foldl_cons, inputFoldStep_eq]
    rw [ih (acc ++ inputEnvelopes i v) (i + 1)]
    have harith : i + 1 + vs.length = i + (vs.length + 1) := by omega
    rw [harith]
    simp [scanSpecFrom, idxMap, List.append_assoc]

theorem extractAllOrdinals_eq_scanSpec (vins : List TxVin) :
    extractAllOrdinals vins = scanSpec vins := by
  unfold extractAllOrdinals scanSpec
  rw [foldl_inputs vins [] 0]
  simp

theorem mem_idxFilterMap {α β : Type} {f : Nat → α → Option β} :
    ∀ {l : List α} {s : Nat} {x : β}, x ∈ idxFilterMap f s l →
      ∃ k a, l[k]? = some a ∧ f (s + k) a = some x := by
  intro l
  induction l with
  | nil => intro s x h; simp [idxFilterMap] at h
  | cons a as ih =>
    intro s x h
    cases hf : f s a with
    | some b =>
      simp only [idxFilterMap, hf, List.mem_cons] at h
      rcases h with rfl | h
      · exact ⟨0, a, by simp, by rw [Nat.add_zero]; exact hf⟩
      · obtain ⟨k, a', hk, hfk⟩ := ih (s := s + 1) h
        refine ⟨k + 1, a', by simpa using hk, ?_⟩
        have harith : s + (k + 1) = s + 1 + k := by omega
        rw [harith]
        exact hfk
    | none =>
      simp only [idxFilterMap, hf] at h
      obtain ⟨k, a', hk, hfk⟩ := ih (s := s + 1) h
      refine ⟨k + 1, a', by simpa using hk, ?_⟩
      have harith : s + (k + 1) = s + 1 + k := by omega
      rw [harith]
      exact hfk

theorem idxFilterMap_pairwise {α β : Type} {f : Nat → α → Option β} (tag : β → Nat)
    (htag : ∀ j a x, f j a = some x → tag x = j) :
    ∀ (l : List α) (s : Nat),
      (idxFilterMap f s l).Pairwise (fun x y => tag x < tag y) := by
  intro l
  induction l with
  | nil => intro s; simp [idxFilterMap]
  | cons a as ih =>
    intro s
    cases hf : f s a with
    | none =>
      simp only [idxFilterMap, hf]
      exact ih (s + 1)
    | some b =>
      simp only [idxFilterMap, hf]
      refine List.Pairwise.cons ?_ (ih (s + 1))
      intro y hy
      obtain ⟨k, a', _, hfk⟩ := mem_idxFilterMap hy
      have hb : tag b = s := htag s a b hf
      have hyk : tag y = s + 1 + k := htag _ a' y hfk
      omega

theorem inputEnvelopes_inputIndex {i : Nat} {v : TxVin} {x : ExtractedOrdinal}
    (h : x ∈ inputEnvelopes i v) : x.inputIndex = i := by
  cases hw : v.witness with
  | none => simp [inputEnvelopes, hw] at h
  | some ws =>
    simp only [inputEnvelopes, hw] at h
    obtain ⟨k, w, _, hfk⟩ := mem_idxFilterMap h
    cases hpe : parseEnvelope w with
    | none => rw [hpe] at hfk; simp at hfk
    | some ex =>
      rw [hpe] at hfk
      simp only [Option.map_some', Option.some.injEq] at hfk
      rw [← hfk]

theorem inputEnvelopes_pairwise (i : Nat) (v : TxVin) :
    (inputEnvelopes i v).Pairwise (fun x y => x.witnessIndex < y.witnessIndex) := by
  cases hw : v.witness with
  | none => simp [inputEnvelopes, hw]
  | some ws =>
    simp only [inputEnvelopes, hw]
    refine idxFilterMap_pairwise (fun x : ExtractedOrdinal => x.witnessIndex) ?_ ws 0
    intro j a x hf
    cases hpe : parseEnvelope a with
    | none => rw [hpe] at hf; simp at hf
    | some ex =>
      rw [hpe] at hf
      simp only [Option.map_some', Option.some.injEq] at hf
      rw [← hf]

theorem inputEnvelopes_pairwise_env (i : Nat) (v : TxVin) :
    (inputEnvelopes i v).Pairwise envBefore := by
  refine (inputEnvelopes_pairwise i v).imp_of_mem ?_
  intro x y hx hy hlt
  exact Or.inr ⟨by rw [inputEnvelopes_inputIndex hx, inputEnvelopes_inputIndex hy], hlt⟩

theorem mem_scanSpecFrom {vins : List TxVin} :
    ∀ {s : Nat} {x : ExtractedOrdinal}, x ∈ scanSpecFrom s vins →
      ∃ k v, vins[k]? = some v ∧ x ∈ inputEnvelopes (s + k) v := by
  induction vins with
  | nil => intro s x h; simp [scanSpecFrom, idxMap] at h
  | cons v vs ih =>
    intro s x h
    simp only [scanSpecFrom, idxMap, List.flatten_cons, List.mem_append] at h
    rcases h with h | h
    · exact ⟨0, v, by simp, by simpa using h⟩
    · obtain ⟨k, v', hk, hmem⟩ := ih (s := s + 1) h
      refine ⟨k + 1, v', by simpa using hk, ?_⟩
      have harith : s + (k + 1) = s + 1 + k := by omega
      rw [harith]
      exact hmem

theorem scanSpecFrom_pairwise (vins : List TxVin) :
    ∀ s : Nat, (scanSpecFrom s vins).Pairwise envBefore := by
  induction vins with
  | nil => intro s; simp [scanSpecFrom, idxMap]
  | cons v vs ih =>
    intro s
    simp only [scanSpecFrom, idxMap, List.flatten_cons]
    rw [List.pairwise_append]
    refine ⟨inputEnvelopes_pairwise_env s v, ih (s + 1), ?_⟩
    intro x hx y hy
    have hxi : x.inputIndex = s := inputEnvelopes_inputIndex hx
    obtain ⟨k, v', _, hmem⟩ := mem_scanSpecFrom hy
    have hyi : y.inputIndex = s + 1 + k := inputEnvelopes_inputIndex hmem
    exact Or.inl (by omega)

theorem idxFilterMap_eq_nil {α β : Type} {f : Nat → α → Option β} :
    ∀ (l : List α) (s : Nat), (∀ j a, a ∈ l → f j a = none) →
      idxFilterMap f s l = [] := by
  intro l
  induction l with
  | nil => intro s _; rfl
  | cons a as ih =>
    intro s h
    simp only [idxFilterMap, h s a (by simp)]
    exact ih (s + 1) (fun j a' ha' => h j a' (by simp [ha']))

theorem inputEnvelopes_eq_nil {i : Nat} {v : TxVin}
    (h : ∀ ws, v.witness = some ws → ∀ w ∈ ws, parseEnvelope w = none) :
    inputEnvelopes i v = [] := by
  cases hw : v.witness with
  | none => simp [inputEnvelopes, hw]
  | some ws =>
    simp only [inputEnvelopes, hw]
    apply idxFilterMap_eq_nil
    intro j w hwmem
    rw [h ws hw w hwmem]
    rfl

theorem scanSpecFrom_eq_nil {vins : List TxVin}
    (h : ∀ v ∈ vins, ∀ ws, v.witness = some ws → ∀ w ∈ ws, parseEnvelope w = none) :
    ∀ s : Nat, scanSpecFrom s vins = [] := by
  induction vins with
  | nil => intro s; rfl
  | cons v vs ih =>
    intro s
    simp only [scanSpecFrom, idxMap, List.flatten_cons]
    rw [inputEnvelopes_eq_nil (h v (by simp))]
    have h2 := ih (fun v' hv' => h v' (by simp [hv'])) (s + 1)
    simp only [scanSpecFrom] at h2
    simpa using h2

/-- C5: the scan visits every input and, within each input, every witness
item in stack order: the result equals the in-order declarative traversal,
its tags are strictly increasing in input-major witness-minor order, every
element's tag points back at the witness item that parsed to it, and a
transaction in which no witness item parses yields the empty list. -/
theorem scan_visits_all_inputs_in_order : ∀ vins : List TxVin,
    extractAllOrdinals vins = scanSpec vins ∧
    (extractAllOrdinals vins).Pairwise envBefore ∧
    (∀ x ∈ extractAllOrdinals vins,
      ∃ v ws w, vins[x.inputIndex]? = some v ∧ v.witness = some ws ∧
        ws[x.witnessIndex]? = some w ∧
        parseEnvelope w = some (x.contentType, x.content) ∧
        x.txid = v.txid ∧ x.vout = v.vout) ∧
    ((∀ v ∈ vins, ∀ ws, v.witness = some ws → ∀ w ∈ ws, parseEnvelope w = none) →
      extractAllOrdinals vins = []) := by
  intro vins
  have heq := extractAllOrdinals_eq_scanSpec vins
  refine ⟨heq, ?_, ?_, ?_⟩
  · rw [heq]
    exact scanSpecFrom_pairwise vins 0
  · intro x hx
    rw [heq] at hx
    obtain ⟨k, v, hk, hmem⟩ := mem_scanSpecFrom hx
    cases hw : v.witness with
    | none => simp [inputEnvelopes, hw] at hmem
    | some ws =>
      simp only [inputEnvelopes, hw] at hmem
      obtain ⟨j, w, hj, hfj⟩ := mem_idxFilterMap hmem
      cases hpe : parseEnvelope w with
      | none => rw [hpe] at hfj; simp at hfj
      | some ex =>
        rw [hpe] at hfj
        simp only [Option.map_some', Option.some.injEq] at hfj
        refine ⟨v, ws, w, ?_, hw, ?_, ?_, ?_, ?_⟩
        · rw [← hfj]
          simpa using hk
        · rw [← hfj]
          simpa using hj
        · rw [← hfj, hpe]
        · rw [← hfj]
        · rw [← hfj]
  · intro h
    rw [heq]
    exact scanSpecFrom_eq_nil h 0

/-- Witness for C5: a transaction whose first input carries one parsing and
one non-parsing witness item and whose second input has no witness yields
exactly the tagged envelope of item (0,0); a transaction whose only witness
item does not parse yields the empty list. -/
theorem scan_visits_witness :
    (∃ v ws w,
      [TxVin.mk [1] 0 (some [some [Tok.op 0, Tok.op 99, Tok.data ordBytes, Tok.op 81,
          Tok.data [116], Tok.op 0, Tok.data [104], Tok.op 104], some [Tok.op 7]]),
       TxVin.mk [2] 1 none][(ExtractedOrdinal.mk [116] [104] 0 0 [1] 0).inputIndex]?
          = some v ∧
        v.witness = some ws ∧
        ws[(ExtractedOrdinal.mk [116] [104] 0 0 [1] 0).witnessIndex]? = some w ∧
        parseEnvelope w = some ([116], [104]) ∧
        ([1] : List Nat) = v.txid ∧ (0 : Nat) = v.vout) ∧
    extractAllOrdinals [TxVin.mk [3] 2 (some [some [Tok.op 7]])] = [] := by
  constructor
  · exact (scan_visits_all_inputs_in_order
      [TxVin.mk [1] 0 (some [some [Tok.op 0, Tok.op 99, Tok.data ordBytes, Tok.op 81,
          Tok.data [116], Tok.op 0, Tok.data [104], Tok.op 104], some [Tok.op 7]]),
       TxVin.mk [2] 1 none]).2.2.1
      (ExtractedOrdinal.mk [116] [104] 0 0 [1] 0) (by decide)
  · exact (scan_visits_all_inputs_in_order
      [TxVin.mk [3] 2 (some [some [Tok.op 7]])]).2.2.2
      (by
        intro v hv ws hws w hw
        simp only [List.mem_singleton] at hv
        subst hv
        have hws' : [some [Tok.op 7]] = ws := Option.some.inj hws
        rw [← hws'] at hw
        simp only [List.mem_singleton] at hw
        subst hw
        decide)

/-- One cache entry: the stored data and its creation timestamp in
milliseconds. -/
structure CacheEntry (T : Type) where
  data : T
  timestamp : Int
deriving DecidableEq

/-- Simple TTL cache: the underlying JavaScript Map is modelled as an
association list in insertion order, and the entry lifetime is kept in
milliseconds. -/
structure SimpleCache (T : Type) where
  entries : List (List Nat × CacheEntry T)
  ttlMs : Int
deriving DecidableEq

/-- Map.get on the underlying store. -/
def mapGet {T : Type} (k : List Nat) (l : List (List Nat × CacheEntry T)) :
    Option (CacheEntry T) :=
  (l.find? (fun p => p.1 == k)).map (fun p => p.2)

/-- Map.set on the underlying store: replace the value of an existing key in
place, otherwise append the new binding. -/
def mapSet {T : Type} (k : List Nat) (v : CacheEntry T)
    (l : List (List Nat × CacheEntry T)) : List (List Nat × CacheEntry T) :=
  if l.any (fun p => p.1 == k) then l.map (fun p => if p.1 == k then (k, v) else p)
  else l ++ [(k, v)]

/-- Map.delete on the underlying store. -/
def mapDelete {T : Type} (k : List Nat) (l : List (List Nat × CacheEntry T)) :
    List (List Nat × CacheEntry T) :=
  l.eraseP (fun p => p.1 == k)

/-- SimpleCache constructor: the lifetime argument is in seconds and is
stored in milliseconds. -/
def SimpleCache.create (T : Type) (ttlSeconds : Int) : SimpleCache T :=
  ⟨[], ttlSeconds * 1000⟩

/-- Model of SimpleCache.get at the given current time: a missing key is a
miss; an entry strictly older than the TTL is deleted and reported as a
miss; otherwise the stored data is returned.  The possibly mutated cache is
returned alongside. -/
def SimpleCache.get {T : Type} (c : SimpleCache T) (now : Int) (key : List Nat) :
    Option T × SimpleCache T :=
  match mapGet key c.entries with
  | none => (none, c)
  | some entry =>
    if c.ttlMs < now - entry.timestamp then
      (none, { c with entries := mapDelete key c.entries })
    else (some entry.data, c)

/-- Model of SimpleCache.set at the given current time. -/
def SimpleCache.set {T : Type} (c : SimpleCache T) (now : Int) (key : List Nat)
    (data : T) : SimpleCache T :=
  { c with entries := mapSet key ⟨data, now⟩ c.entries }

/-- Model of SimpleCache.has: key membership only, expiry is not checked. -/
def SimpleCache.has {T : Type} (c : SimpleCache T) (key : List Nat) : Bool :=
  c.entries.any (fun p => p.1 == key)

/-- Model of the SimpleCache size getter: the number of stored entries,
expired entries included. -/
def SimpleCache.size {T : Type} (c : SimpleCache T) : Nat :=
  c.entries.length

theorem mapGet_eq_none_iff {T : Type} {k : List Nat}
    {l : List (List Nat × CacheEntry T)} :
    mapGet k l = none ↔ ∀ p ∈ l, (p.1 == k) = false := by
  unfold mapGet
  rw [Option.map_eq_none']
  rw [List.find?_eq_none]
  constructor
  · intro h p hp
    have := h p hp
    revert this; cases (p.1 == k) <;> simp
  · intro h p hp
    rw [h p hp]
    simp

theorem any_eq_false_of_mapGet_none {T : Type} {k : List Nat}
    {l : List (List Nat × CacheEntry T)} (h : mapGet k l = none) :
    l.any (fun p => p.1 == k) = false := by
  rw [List.any_eq_false]
  intro p hp
  rw [(mapGet_eq_none_iff).mp h p hp]
  simp

theorem mapSet_of_mapGet_none {T : Type} {k : List Nat} {v : CacheEntry T}
    {l : List (List Nat × CacheEntry T)} (h : mapGet k l = none) :
    mapSet k v l = l ++ [(k, v)] := by
  unfold mapSet
  rw [any_eq_false_of_mapGet_none h]
  simp

theorem mapGet_append_single {T : Type} {k : List Nat} {v : CacheEntry T}
    {l : List (List Nat × CacheEntry T)} (h : mapGet k l = none) :
    mapGet k (l ++ [(k, v)]) = some v := by
  unfold mapGet at h ⊢
  rw [List.find?_append]
  rw [Option.map_eq_none'] at h
  rw [h]
  simp [List.find?]

theorem mapDelete_append_single {T : Type} {k : List Nat} {v : CacheEntry T}
    {l : List (List Nat × CacheEntry T)} (h : mapGet k l = none) :
    mapDelete k (l ++ [(k, v)]) = l := by
  unfold mapDelete
  rw [List.eraseP_append_right]
  · simp [List.eraseP]
  · intro p hp
    rw [(mapGet_eq_none_iff).mp h p hp]
    simp

/-- A cache state whose stored keys are pairwise distinct, as the JavaScript
Map guarantees. -/
def keysNodup {T : Type} (c : SimpleCache T) : Prop :=
  (c.entries.map (fun p => p.1)).Nodup

theorem mapGet_mapDelete_self {T : Type} {k : List Nat} :
    ∀ {l : List (List Nat × CacheEntry T)},
      (l.map (fun p => p.1)).Nodup → mapGet k (mapDelete k l) = none := by
  intro l
  induction l with
  | nil => intro _; rfl
  | cons p ps ih =>
    intro hnd
    simp only [List.map_cons, List.nodup_cons] at hnd
    by_cases hp : (p.1 == k) = true
    · have hk : p.1 = k := by simpa using hp
      unfold mapDelete
      simp only [List.eraseP_cons, hp, cond_true]
      rw [mapGet_eq_none_iff]
      intro q hq
      have hqk : q.1 ≠ p.1 := by
        intro hcontra
        exact hnd.1 (hcontra ▸ List.mem_map_of_mem (fun r => r.1) hq)
      simpa using fun hcontra => hqk (by rw [hcontra, hk])
    · unfold mapDelete
      have hp' : (p.1 == k) = false := by
        revert hp; cases (p.1 == k) <;> simp
      simp only [List.eraseP_cons, hp', cond_false]
      unfold mapGet
      simp only [List.find?_cons, hp', cond_false]
      exact ih hnd.2

theorem has_true_of_mapGet_some {T : Type} {k : List Nat} {e : CacheEntry T}
    {l : List (List Nat × CacheEntry T)} (h : mapGet k l = some e) :
    l.any (fun p => p.1 == k) = true := by
  unfold mapGet at h
  rw [Option.map_eq_some'] at h
  obtain ⟨p, hp, _⟩ := h
  have hmem := List.mem_of_find?_eq_some hp
  have hpa := List.find?_some hp
  rw [List.any_eq_true]
  exact ⟨p, hmem, hpa⟩

theorem length_mapDelete_of_mapGet_some {T : Type} {k : List Nat} {e : CacheEntry T}
    {l : List (List Nat × CacheEntry T)} (h : mapGet k l = some e) :
    (mapDelete k l).length + 1 = l.length := by
  unfold mapGet at h
  rw [Option.map_eq_some'] at h
  obtain ⟨p, hp, _⟩ := h
  have hmem := List.mem_of_find?_eq_some hp
  have hpa := List.find?_some hp
  unfold mapDelete
  exact List.length_eraseP_add_one hmem hpa

/-- Primary-inscription alias attached to a transaction summary. -/
structure OrdinalInfo where
  isOrdinal : Bool
  ctype : List Nat
  dataHex : List Nat
deriving DecidableEq

/-- Transaction summary restricted to the fields the verified claims
inspect: the identifier and the primary-inscription alias.  The remaining
fields of the source object (version, locktime, size, weight, fee, status,
inputs, outputs) are verbatim projections of the fetched JSON and are
omitted. -/
structure TransactionWithOrdinal where
  txid : List Nat
  ordinal : Option OrdinalInfo
deriving DecidableEq

/-- Fetched transaction as the scanner consumes it: identifier and inputs. -/
structure BlockstreamTx where
  txid : List Nat
  vin : List TxVin
deriving DecidableEq

/-- Lower-case hex digit of a value below 16. -/
def hexDigit (n : Nat) : Nat := if n < 10 then 48 + n else 87 + n

/-- Hex encoding of a byte buffer, as Buffer.toString with the hex encoding
produces. -/
def toHexBytes (b : List Nat) : List Nat :=
  (b.map (fun x => [hexDigit (x / 16 % 16), hexDigit (x % 16)])).flatten

/-- Model of OrdinalsClient.buildTransactionWithOrdinal: the first extracted
inscription, if any, becomes the primary-inscription alias, its payload
hex-encoded. -/
def buildTransactionWithOrdinal (txParsed : BlockstreamTx)
    (extractedOrdinals : List ExtractedOrdinal) : TransactionWithOrdinal :=
  { txid := txParsed.txid,
    ordinal :=
      match extractedOrdinals with
      | [] => none
      | f :: _ => some ⟨true, f.contentType, toHexBytes f.content⟩ }

/-- Per-transaction cached record.  The optional raw-hex field of the source
is omitted: the model fixes includeRaw to false, its default and the only
value the other client methods pass, so the field is always absent. -/
structure TransactionCache where
  basicTransaction : TransactionWithOrdinal
  extractedOrdinals : List ExtractedOrdinal
deriving DecidableEq

/-- Model of OrdinalsClient.getTransaction with includeRaw fixed to false:
consult the cache; on a hit return the stored summary; on a miss call the
fetch collaborator once, scan the inputs, build the summary, cache summary
and inscriptions together, and return the summary; a fetch failure is
rethrown through wrapErr (the catch clause that passes a BitcoinError
through and wraps anything else) and nothing is cached.  The third result
component lists the fetch calls the invocation performed.  The in-flight
request set of the source is written but never read, so it is not part of
the state. -/
def getTransaction {E : Type} (wrapErr : E → E)
    (fetch : List Nat → Except E BlockstreamTx) (now : Int)
    (st : SimpleCache TransactionCache) (txid : List Nat) :
    Except E TransactionWithOrdinal × SimpleCache TransactionCache × List (List Nat) :=
  match st.get now txid with
  | (some tc, st1) => (Except.ok tc.basicTransaction, st1, [])
  | (none, st1) =>
    match fetch txid with
    | Except.error e => (Except.error (wrapErr e), st1, [txid])
    | Except.ok txParsed =>
      let eo := extractAllOrdinals txParsed.vin
      let ti := buildTransactionWithOrdinal txParsed eo
      (Except.ok ti, st1.set now txid ⟨ti, eo⟩, [txid])

theorem getTransaction_miss_ok {E : Type} (wrapErr : E → E)
    (f : List Nat → Except E BlockstreamTx) (t : Int)
    (st : SimpleCache TransactionCache) (txid : List Nat) (tx : BlockstreamTx)
    (hm : mapGet txid st.entries = none) (hf : f txid = Except.ok tx) :
    getTransaction wrapErr f t st txid
      = (Except.ok (buildTransactionWithOrdinal tx (extractAllOrdinals tx.vin)),
         st.set t txid
           ⟨buildTransactionWithOrdinal tx (extractAllOrdinals tx.vin),
            extractAllOrdinals tx.vin⟩,
         [txid]) := by
  have hget1 : st.get t txid = (none, st) := by
    unfold SimpleCache.get
    rw [hm]
  simp only [getTransaction, hget1, hf]

theorem set_get_fresh (t t' : Int) (st : SimpleCache TransactionCache)
    (txid : List Nat) (tc : TransactionCache)
    (hm : mapGet txid st.entries = none) (hle : t' - t ≤ st.ttlMs) :
    (st.set t txid tc).get t' txid = (some tc, st.set t txid tc) := by
  unfold SimpleCache.get SimpleCache.set
  simp only [mapSet_of_mapGet_none hm, mapGet_append_single hm]
  rw [if_neg (by omega)]

theorem set_get_expired (t t' : Int) (st : SimpleCache TransactionCache)
    (txid : List Nat) (tc : TransactionCache)
    (hm : mapGet txid st.entries = none) (hgt : st.ttlMs < t' - t) :
    (st.set t txid tc).get t' txid
      = (none, { st with entries := st.entries }) := by
  unfold SimpleCache.get SimpleCache.set
  simp only [mapSet_of_mapGet_none hm, mapGet_append_single hm]
  rw [if_pos (by omega)]
  simp only [mapDelete_append_single hm]

/-- C6: with the 300-second TTL the client installs, a fresh lookup that
fetches successfully caches the result at the current time; any second
lookup within 300 seconds returns the stored summary with the cache
unchanged and performs no fetch whatever fetch function is in effect, so two
sequential lookups inside the window fetch exactly once; a second lookup
after more than 300 seconds evicts the entry and fetches again. -/
theorem cached_lookup_ttl_and_single_fetch :
    ∀ (E : Type) (wrapErr : E → E) (f g : List Nat → Except E BlockstreamTx)
      (t t' : Int) (st : SimpleCache TransactionCache) (txid : List Nat)
      (tx : BlockstreamTx),
      (∀ e, mapGet txid st.entries = some e → t - e.timestamp ≤ st.ttlMs →
        getTransaction wrapErr f t st txid
          = (Except.ok e.data.basicTransaction, st, [])) ∧
      (mapGet txid st.entries = none →
      st.ttlMs = 300 * 1000 →
      f txid = Except.ok tx →
      (getTransaction wrapErr f t st txid
        = (Except.ok (buildTransactionWithOrdinal tx (extractAllOrdinals tx.vin)),
           st.set t txid
             ⟨buildTransactionWithOrdinal tx (extractAllOrdinals tx.vin),
              extractAllOrdinals tx.vin⟩,
           [txid])) ∧
      (t' - t ≤ 300 * 1000 →
        getTransaction wrapErr g t'
            (st.set t txid
              ⟨buildTransactionWithOrdinal tx (extractAllOrdinals tx.vin),
               extractAllOrdinals tx.vin⟩) txid
          = (Except.ok (buildTransactionWithOrdinal tx (extractAllOrdinals tx.vin)),
             st.set t txid
               ⟨buildTransactionWithOrdinal tx (extractAllOrdinals tx.vin),
                extractAllOrdinals tx.vin⟩,
             [])) ∧
      (300 * 1000 < t' - t →
        (getTransaction wrapErr g t'
            (st.set t txid
              ⟨buildTransactionWithOrdinal tx (extractAllOrdinals tx.vin),
               extractAllOrdinals tx.vin⟩) txid).2.2 = [txid] ∧
        mapGet txid
            (((st.set t txid
                ⟨buildTransactionWithOrdinal tx (extractAllOrdinals tx.vin),
                 extractAllOrdinals tx.vin⟩).get t' txid).2).entries = none)) := by
  intro E wrapErr f g t t' st txid tx
  constructor
  · intro e hme hfresh
    have hget : st.get t txid = (some e.data, st) := by
      unfold SimpleCache.get
      simp only [hme]
      rw [if_neg (by omega)]
    simp only [getTransaction, hget]
  intro hm httl hf
  refine ⟨getTransaction_miss_ok wrapErr f t st txid tx hm hf, ?_, ?_⟩
  · intro hle
    have hget2 := set_get_fresh t t' st txid
      ⟨buildTransactionWithOrdinal tx (extractAllOrdinals tx.vin),
       extractAllOrdinals tx.vin⟩ hm (by omega)
    simp only [getTransaction, hget2]
  · intro hgt
    have hget3 := set_get_expired t t' st txid
      ⟨buildTransactionWithOrdinal tx (extractAllOrdinals tx.vin),
       extractAllOrdinals tx.vin⟩ hm (by omega)
    constructor
    · simp only [getTransaction, hget3]
      cases hg : g txid with
      | error e => rfl
      | ok tx2 => rfl
    · rw [hget3]
      exact hm

/-- Witness for C6: starting from the freshly constructed 300-second cache,
a lookup at time 0 fetches once and caches; a second lookup at time 1000 ms,
with a fetch function that would fail, still returns the cached summary with
no fetch call. -/
theorem cached_lookup_witness :
    getTransaction (E := Nat) id (fun _ => Except.ok (BlockstreamTx.mk [7] [])) 0
        (SimpleCache.create TransactionCache 300) [1]
      = (Except.ok (TransactionWithOrdinal.mk [7] none),
         SimpleCache.mk
           [([1],
             CacheEntry.mk
               (TransactionCache.mk (TransactionWithOrdinal.mk [7] none) []) 0)]
           (300 * 1000),
         [[1]]) ∧
    getTransaction (E := Nat) id (fun _ => Except.error 5) 1000
        (SimpleCache.mk
          [([1],
            CacheEntry.mk
              (TransactionCache.mk (TransactionWithOrdinal.mk [7] none) []) 0)]
          (300 * 1000)) [1]
      = (Except.ok (TransactionWithOrdinal.mk [7] none),
         SimpleCache.mk
           [([1],
             CacheEntry.mk
               (TransactionCache.mk (TransactionWithOrdinal.mk [7] none) []) 0)]
           (300 * 1000),
         []) := by
  have h := cached_lookup_ttl_and_single_fetch Nat id
    (fun _ => Except.ok (BlockstreamTx.mk [7] []))
    (fun _ => Except.error 5) 0 1000
    (SimpleCache.create TransactionCache 300) [1] (BlockstreamTx.mk [7] [])
  have hB := cached_lookup_ttl_and_single_fetch Nat id
    (fun _ => Except.error 5) (fun _ => Except.error 5) 1000 0
    (SimpleCache.mk
      [([1],
        CacheEntry.mk
          (TransactionCache.mk (TransactionWithOrdinal.mk [7] none) []) 0)]
      (300 * 1000))
    [1] (BlockstreamTx.mk [7] [])
  exact ⟨(h.2 rfl rfl rfl).1,
    hB.1
      (CacheEntry.mk (TransactionCache.mk (TransactionWithOrdinal.mk [7] none) []) 0)
      rfl (by decide)⟩

/-- C7 counterexample: on a state holding an expired entry for the key, a
lookup whose fetch fails still changes the cache state for that key — the
lookup lazily evicts the expired entry before the fetch runs — so the state
for the key is not unchanged, even though the fetch error propagates. -/
theorem failed_fetch_changes_expired_key :
    (getTransaction (E := Nat) id (fun _ => Except.error 3) 300001
        (SimpleCache.mk
          [([1],
            CacheEntry.mk
              (TransactionCache.mk (TransactionWithOrdinal.mk [9] none) []) 0)]
          (300 * 1000)) [1]).1 = Except.error 3 ∧
    mapGet [1]
        (SimpleCache.mk
          [([1],
            CacheEntry.mk
              (TransactionCache.mk (TransactionWithOrdinal.mk [9] none) []) 0)]
          (300 * 1000) : SimpleCache TransactionCache).entries
      = some (CacheEntry.mk
          (TransactionCache.mk (TransactionWithOrdinal.mk [9] none) []) 0) ∧
    mapGet [1]
        ((getTransaction (E := Nat) id (fun _ => Except.error 3) 300001
          (SimpleCache.mk
            [([1],
              CacheEntry.mk
                (TransactionCache.mk (TransactionWithOrdinal.mk [9] none) []) 0)]
            (300 * 1000)) [1]).2.1).entries = none :=
  ⟨rfl, rfl, rfl⟩

theorem get_miss_no_entry {T : Type} {c c1 : SimpleCache T} {now : Int}
    {key : List Nat} (hnd : keysNodup c) (hget : c.get now key = (none, c1)) :
    mapGet key c1.entries = none := by
  cases hmg : mapGet key c.entries with
  | none =>
    unfold SimpleCache.get at hget
    rw [hmg] at hget
    have hc : c = c1 := congrArg Prod.snd hget
    rw [← hc]
    exact hmg
  | some e =>
    unfold SimpleCache.get at hget
    simp only [hmg] at hget
    by_cases hexp : c.ttlMs < now - e.timestamp
    · rw [if_pos hexp] at hget
      have hc : { c with entries := mapDelete key c.entries } = c1 :=
        congrArg Prod.snd hget
      rw [← hc]
      exact mapGet_mapDelete_self hnd
    · rw [if_neg hexp] at hget
      simp at hget

/-- C7 amended: on a lookup that misses (key absent, or present but expired
and therefore lazily evicted by the lookup itself — the only state change),
a failed fetch propagates the error through the rethrow policy and inserts
nothing, so after the call the key maps to no entry and a later call with a
succeeding fetch function fetches afresh and succeeds. -/
theorem failed_fetch_not_cached :
    ∀ (E : Type) (wrapErr : E → E) (f g : List Nat → Except E BlockstreamTx)
      (t t' : Int) (st st1 : SimpleCache TransactionCache) (txid : List Nat)
      (err : E) (tx : BlockstreamTx),
      keysNodup st →
      st.get t txid = (none, st1) →
      f txid = Except.error err →
      g txid = Except.ok tx →
      getTransaction wrapErr f t st txid
        = (Except.error (wrapErr err), st1, [txid]) ∧
      mapGet txid st1.entries = none ∧
      getTransaction wrapErr g t' st1 txid
        = (Except.ok (buildTransactionWithOrdinal tx (extractAllOrdinals tx.vin)),
           st1.set t' txid
             ⟨buildTransactionWithOrdinal tx (extractAllOrdinals tx.vin),
              extractAllOrdinals tx.vin⟩,
           [txid]) := by
  intro E wrapErr f g t t' st st1 txid err tx hnd hsg hf hg
  have hm2 : mapGet txid st1.entries = none := get_miss_no_entry hnd hsg
  refine ⟨?_, hm2, ?_⟩
  · simp only [getTransaction, hsg, hf]
  · exact getTransaction_miss_ok wrapErr g t' st1 txid tx hm2 hg

/-- Witness for the amended C7: on the fresh cache a failing fetch leaves
the state unchanged and propagates the error, and the next call with a
working fetch succeeds and caches. -/
theorem failed_fetch_witness :
    getTransaction (E := Nat) id (fun _ => Except.error 3) 0
        (SimpleCache.create TransactionCache 300) [1]
      = (Except.error 3, SimpleCache.create TransactionCache 300, [[1]]) ∧
    getTransaction (E := Nat) id (fun _ => Except.ok (BlockstreamTx.mk [7] [])) 5
        (SimpleCache.create TransactionCache 300) [1]
      = (Except.ok (TransactionWithOrdinal.mk [7] none),
         SimpleCache.mk
           [([1],
             CacheEntry.mk
               (TransactionCache.mk (TransactionWithOrdinal.mk [7] none) []) 5)]
           (300 * 1000),
         [[1]]) := by
  have h := failed_fetch_not_cached Nat id (fun _ => Except.error 3)
    (fun _ => Except.ok (BlockstreamTx.mk [7] [])) 0 5
    (SimpleCache.create TransactionCache 300)
    (SimpleCache.create TransactionCache 300) [1] 3 (BlockstreamTx.mk [7] [])
    (by unfold keysNodup SimpleCache.create; decide) rfl rfl rfl
  exact ⟨h.1, h.2.2⟩

/-- C9: an entry past its TTL that has not yet been read through get is
still reported present by has and still counted by size, while get on the
same state returns nothing, removes the entry, and shrinks size by one. -/
theorem has_size_ignore_expiry :
    ∀ (T : Type) (c : SimpleCache T) (now : Int) (key : List Nat) (e : CacheEntry T),
      keysNodup c →
      mapGet key c.entries = some e →
      c.ttlMs < now - e.timestamp →
      c.has key = true ∧
      (c.get now key).1 = none ∧
      mapGet key ((c.get now key).2).entries = none ∧
      ((c.get now key).2).size + 1 = c.size := by
  intro T c now key e hnd hmg hexp
  have hget : c.get now key = (none, { c with entries := mapDelete key c.entries }) := by
    unfold SimpleCache.get
    simp only [hmg]
    rw [if_pos hexp]
  refine ⟨has_true_of_mapGet_some hmg, ?_, ?_, ?_⟩
  · rw [hget]
  · rw [hget]
    exact mapGet_mapDelete_self hnd
  · rw [hget]
    unfold SimpleCache.size
    exact length_mapDelete_of_mapGet_some hmg

/-- Witness for C9 on a one-entry cache whose entry is 2000 ms old with a
1000 ms TTL. -/
theorem has_size_witness :
    SimpleCache.has (T := Nat) (SimpleCache.mk [([1], CacheEntry.mk 5 0)] 1000) [1]
      = true ∧
    ((SimpleCache.mk (T := Nat) [([1], CacheEntry.mk 5 0)] 1000).get 2000 [1]).1
      = none ∧
    mapGet [1]
        (((SimpleCache.mk (T := Nat) [([1], CacheEntry.mk 5 0)] 1000).get
          2000 [1]).2).entries = none ∧
    (((SimpleCache.mk (T := Nat) [([1], CacheEntry.mk 5 0)] 1000).get
        2000 [1]).2).size + 1
      = (SimpleCache.mk (T := Nat) [([1], CacheEntry.mk 5 0)] 1000).size :=
  has_size_ignore_expiry Nat (SimpleCache.mk [([1], CacheEntry.mk 5 0)] 1000)
    2000 [1] (CacheEntry.mk 5 0) (by unfold keysNodup; decide) (by decide) (by decide)

/-- Image-format option accepted by decodeWitness and the formatter. -/
inductive FmtOpt where
  | base64
  | file
deriving DecidableEq, Repr

/-- External collaborators the formatter delegates to: JSON parsing and
pretty-printing (the JavaScript JSON.parse and indented JSON.stringify),
base64 rendering of a buffer, and the image-persistence sink (the
directory-creation, file-write and path-normalisation block, returning the
final path handle or failing). -/
structure Collab (J : Type) where
  jsonParse : List Nat → Option J
  jsonPretty : J → List Nat
  b64 : List Nat → List Nat
  saveImage : List Nat → Nat → List Nat → List Nat → Except Unit (List Nat)

/-- ASCII bytes of a string literal. -/
def strBytes (s : String) : List Nat := s.data.map Char.toNat

/-- JavaScript truthiness of the optional txid argument: present and not
the empty string. -/
def txidTruthy (txid : Option (List Nat)) : Bool :=
  match txid with
  | some t => !t.isEmpty
  | none => false

/-- Model of OrdinalsClient.formatInscriptionContent: images are persisted
through the sink (file option with a truthy txid) or rendered as a base64
data URI; application/json payloads are pretty-printed when they parse and
fall back to the raw UTF-8 text when they do not; text types are returned
as UTF-8 text; anything else becomes a base64 data URI.  A failure of the
persistence sink is caught and surfaces as none, the only way the formatter
yields no string. -/
def formatInscriptionContent {J : Type} (co : Collab J) (contentType : List Nat)
    (contentBuffer : List Nat) (formatImageOption : FmtOpt)
    (txid : Option (List Nat)) (index : Nat) : Option (List Nat) :=
  if (strBytes "image/").isPrefixOf contentType then
    if formatImageOption = FmtOpt.file ∧ txidTruthy txid = true then
      match co.saveImage (txid.getD []) index contentType contentBuffer with
      | Except.ok p => some p
      | Except.error _ => none
    else
      some (strBytes "data:" ++ contentType ++ strBytes ";base64," ++
        co.b64 contentBuffer)
  else if contentType = strBytes "application/json" then
    match co.jsonParse contentBuffer with
    | some j => some (co.jsonPretty j)
    | none => some contentBuffer
  else if (strBytes "text/").isPrefixOf contentType then
    some contentBuffer
  else
    some (strBytes "data:" ++ contentType ++ strBytes ";base64," ++
      co.b64 contentBuffer)

/-- C8: on the exact application/json content type, the formatter
pretty-prints the payload when it parses as JSON and returns the raw UTF-8
text — not an error, not none — when it does not. -/
theorem json_formatter_falls_back_to_text :
    ∀ (J : Type) (co : Collab J) (payload : List Nat) (opt : FmtOpt)
      (txid : Option (List Nat)) (index : Nat),
      (co.jsonParse payload = none →
        formatInscriptionContent co (strBytes "application/json") payload opt txid index
          = some payload) ∧
      (∀ j, co.jsonParse payload = some j →
        formatInscriptionContent co (strBytes "application/json") payload opt txid index
          = some (co.jsonPretty j)) := by
  intro J co payload opt txid index
  have himg : (strBytes "image/").isPrefixOf (strBytes "application/json") = false := by
    decide
  constructor
  · intro h
    simp [formatInscriptionContent, himg, h]
  · intro j h
    simp [formatInscriptionContent, himg, h]

/-- Witness for C8: a parser that rejects yields the raw payload, a parser
that accepts yields the pretty-printed serialisation. -/
theorem json_formatter_witness :
    formatInscriptionContent
        (Collab.mk (J := Unit) (fun _ => none) (fun _ => [91, 93]) (fun _ => [])
          (fun _ _ _ _ => Except.error ()))
        (strBytes "application/json") [104, 105] FmtOpt.base64 (some [1]) 0
      = some [104, 105] ∧
    formatInscriptionContent
        (Collab.mk (J := Unit) (fun _ => some ()) (fun _ => [91, 93]) (fun _ => [])
          (fun _ _ _ _ => Except.error ()))
        (strBytes "application/json") [104, 105] FmtOpt.base64 (some [1]) 0
      = some [91, 93] := by
  constructor
  · exact (json_formatter_falls_back_to_text Unit
      (Collab.mk (fun _ => none) (fun _ => [91, 93]) (fun _ => [])
        (fun _ _ _ _ => Except.error ()))
      [104, 105] FmtOpt.base64 (some [1]) 0).1 rfl
  · exact (json_formatter_falls_back_to_text Unit
      (Collab.mk (fun _ => some ()) (fun _ => [91, 93]) (fun _ => [])
        (fun _ _ _ _ => Except.error ()))
      [104, 105] FmtOpt.base64 (some [1]) 0).2 () rfl

/-- Formatting loop of decodeWitness: each extracted inscription is
formatted with its position index; the push guard is the JavaScript
truthiness test on the formatted string, so a null result and an empty
string are both skipped. -/
def formatAll {J : Type} (co : Collab J) (eo : List ExtractedOrdinal)
    (txid : List Nat) (formatImageOption : FmtOpt) : List (List Nat) :=
  (eo.foldl
    (fun (acc : List (List Nat) × Nat) (o : ExtractedOrdinal) =>
      match formatInscriptionContent co o.contentType o.content formatImageOption
          (some txid) acc.2 with
      | some s => if s.isEmpty then (acc.1, acc.2 + 1) else (acc.1 ++ [s], acc.2 + 1)
      | none => (acc.1, acc.2 + 1))
    ([], 0)).1

/-- Formatting of one inscription combined with the truthiness push guard:
the outcomes that decodeWitness keeps, none standing for a formatting step
that returned null or the empty string. -/
def truthyFormat {J : Type} (co : Collab J) (opt : FmtOpt) (txid : List Nat)
    (i : Nat) (o : ExtractedOrdinal) : Option (List Nat) :=
  match formatInscriptionContent co o.contentType o.content opt (some txid) i with
  | some s => if s.isEmpty then none else some s
  | none => none

theorem formatAll_eq {J : Type} (co : Collab J) (eo : List ExtractedOrdinal)
    (txid : List Nat) (opt : FmtOpt) :
    formatAll co eo txid opt = idxFilterMap (truthyFormat co opt txid) 0 eo := by
  unfold formatAll
  rw [foldl_push_idx
    (truthyFormat co opt txid)
    (fun (acc : List (List Nat) × Nat) (o : ExtractedOrdinal) =>
      match formatInscriptionContent co o.contentType o.content opt (some txid) acc.2 with
      | some s => if s.isEmpty then (acc.1, acc.2 + 1) else (acc.1 ++ [s], acc.2 + 1)
      | none => (acc.1, acc.2 + 1))
    (fun p a => by
      cases hq : formatInscriptionContent co a.contentType a.content opt (some txid) p.2 with
      | none => simp only [truthyFormat, hq]
      | some s =>
        by_cases hs : s.isEmpty = true <;> simp [truthyFormat, hq, hs])
    eo [] 0]
  simp

theorem idxFilterMap_length_le {α β : Type} (f : Nat → α → Option β) :
    ∀ (l : List α) (s : Nat), (idxFilterMap f s l).length ≤ l.length := by
  intro l
  induction l with
  | nil => intro s; simp [idxFilterMap]
  | cons a as ih =>
    intro s
    cases hf : f s a with
    | none =>
      simp only [idxFilterMap, hf, List.length_cons]
      exact Nat.le_succ_of_le (ih (s + 1))
    | some b =>
      simp only [idxFilterMap, hf, List.length_cons]
      exact Nat.succ_le_succ (ih (s + 1))

theorem truthyFormat_mem_ne_nil {J : Type} (co : Collab J) (opt : FmtOpt)
    (txid : List Nat) :
    ∀ (l : List ExtractedOrdinal) (s : Nat) (x : List Nat),
      x ∈ idxFilterMap (truthyFormat co opt txid) s l → x ≠ [] := by
  intro l s x hx
  obtain ⟨k, a, _, hfk⟩ := mem_idxFilterMap hx
  cases hq : formatInscriptionContent co a.contentType a.content opt (some txid)
      (s + k) with
  | none =>
    simp only [truthyFormat, hq] at hfk
    simp at hfk
  | some r =>
    simp only [truthyFormat, hq] at hfk
    by_cases hr : r.isEmpty = true
    · rw [if_pos hr] at hfk
      simp at hfk
    · rw [if_neg hr] at hfk
      have hxr : r = x := Option.some.inj hfk
      rw [← hxr]
      intro hcontra
      exact hr (by rw [hcontra]; rfl)

/-- Model of OrdinalsClient.decodeWitness: read the cached record (or fetch
through getTransaction and re-read the cache), then format each extracted
inscription in order, pushing only truthy formatted strings — a null result
and an empty string are both dropped; a getTransaction failure is rethrown
unchanged (it is already a BitcoinError, which the catch clause passes
through). -/
def decodeWitness {E J : Type} (wrapErr : E → E)
    (fetch : List Nat → Except E BlockstreamTx) (co : Collab J) (now : Int)
    (st : SimpleCache TransactionCache) (txid : List Nat)
    (formatImageOption : FmtOpt) :
    Except E (List (List Nat)) × SimpleCache TransactionCache × List (List Nat) :=
  match st.get now txid with
  | (some tc, st1) =>
    (Except.ok (formatAll co tc.extractedOrdinals txid formatImageOption), st1, [])
  | (none, st1) =>
    match getTransaction wrapErr fetch now st1 txid with
    | (Except.error e, st2, calls) => (Except.error e, st2, calls)
    | (Except.ok _, st2, calls) =>
      match st2.get now txid with
      | (some tc, st3) =>
        (Except.ok (formatAll co tc.extractedOrdinals txid formatImageOption),
         st3, calls)
      | (none, st3) => (Except.ok [], st3, calls)

/-- C10 counterexample: an inscription of type text/x with an empty payload
— obtainable from a real envelope whose body separator immediately precedes
OP_ENDIF — formats to the empty string, not to null, yet decodeWitness
omits it: the push guard is a truthiness test, so the claim that only
null-formatted inscriptions are omitted is false of the code. -/
theorem empty_string_format_dropped :
    formatInscriptionContent
        (Collab.mk (J := Unit) (fun _ => none) (fun _ => []) (fun _ => [])
          (fun _ _ _ _ => Except.error ()))
        (strBytes "text/x") [] FmtOpt.base64 (some [1]) 0
      = some [] ∧
    extractOrdinalContent
        [Tok.op 0, Tok.op 99, Tok.data ordBytes, Tok.op 81,
         Tok.data (strBytes "text/x"), Tok.op 0, Tok.op 104]
      = some (strBytes "text/x", []) ∧
    decodeWitness (E := Nat) id (fun _ => Except.error 3)
        (Collab.mk (J := Unit) (fun _ => none) (fun _ => []) (fun _ => [])
          (fun _ _ _ _ => Except.error ()))
        0
        (SimpleCache.mk
          [([1],
            CacheEntry.mk
              (TransactionCache.mk (TransactionWithOrdinal.mk [1] none)
                [ExtractedOrdinal.mk (strBytes "text/x") [] 0 0 [1] 0])
              0)]
          (300 * 1000))
        [1] FmtOpt.base64
      = (Except.ok [],
         SimpleCache.mk
           [([1],
             CacheEntry.mk
               (TransactionCache.mk (TransactionWithOrdinal.mk [1] none)
                 [ExtractedOrdinal.mk (strBytes "text/x") [] 0 0 [1] 0])
               0)]
           (300 * 1000),
         []) :=
  ⟨rfl, by decide, rfl⟩

/-- C10 amended: decodeWitness returns, in scan order, the formatted
representation of each extracted inscription whose formatting step returned
a truthy string, silently omitting those whose formatting returned null or
the empty string; hence every element of the result is a non-null,
non-empty string and the result never exceeds the inscriptions in number;
the same holds on a cache miss for the freshly scanned inscriptions, after
a single fetch. -/
theorem decode_witness_keeps_only_truthy_formats :
    ∀ (E J : Type) (wrapErr : E → E) (fetch : List Nat → Except E BlockstreamTx)
      (co : Collab J) (now : Int) (st st1 : SimpleCache TransactionCache)
      (txid : List Nat) (opt : FmtOpt) (tc : TransactionCache) (tx : BlockstreamTx),
      (st.get now txid = (some tc, st1) →
        decodeWitness wrapErr fetch co now st txid opt
          = (Except.ok (idxFilterMap (truthyFormat co opt txid) 0 tc.extractedOrdinals),
             st1, []) ∧
        (idxFilterMap (truthyFormat co opt txid) 0 tc.extractedOrdinals).length
          ≤ tc.extractedOrdinals.length ∧
        (∀ r ∈ idxFilterMap (truthyFormat co opt txid) 0 tc.extractedOrdinals,
          r ≠ [])) ∧
      (mapGet txid st.entries = none →
       fetch txid = Except.ok tx →
       0 ≤ st.ttlMs →
        decodeWitness wrapErr fetch co now st txid opt
          = (Except.ok
              (idxFilterMap (truthyFormat co opt txid) 0 (extractAllOrdinals tx.vin)),
             st.set now txid
               ⟨buildTransactionWithOrdinal tx (extractAllOrdinals tx.vin),
                extractAllOrdinals tx.vin⟩,
             [txid])) := by
  intro E J wrapErr fetch co now st st1 txid opt tc tx
  constructor
  · intro hsg
    refine ⟨?_, idxFilterMap_length_le _ _ 0, ?_⟩
    · simp only [decodeWitness, hsg, formatAll_eq]
    · intro r hr
      exact truthyFormat_mem_ne_nil co opt txid tc.extractedOrdinals 0 r hr
  · intro hm hf htl
    have hget1 : st.get now txid = (none, st) := by
      unfold SimpleCache.get
      rw [hm]
    have hgt := getTransaction_miss_ok wrapErr fetch now st txid tx hm hf
    have hget2 := set_get_fresh now now st txid
      ⟨buildTransactionWithOrdinal tx (extractAllOrdinals tx.vin),
       extractAllOrdinals tx.vin⟩ hm (by omega)
    simp only [decodeWitness, hget1, hgt, hget2, formatAll_eq]

/-- Witness for the amended C10: a cached transaction with three
inscriptions — an image formatted under the file option against a failing
persistence sink (null), a text inscription with empty payload (empty
string), and a text inscription with content — decodes to the single truthy
formatted text; a fresh lookup of a transaction without inscriptions
decodes to the empty list after one fetch. -/
theorem decode_witness_truthy_witness :
    decodeWitness (E := Nat) id (fun _ => Except.error 3)
        (Collab.mk (J := Unit) (fun _ => none) (fun _ => []) (fun _ => [])
          (fun _ _ _ _ => Except.error ()))
        0
        (SimpleCache.mk
          [([1],
            CacheEntry.mk
              (TransactionCache.mk (TransactionWithOrdinal.mk [1] none)
                [ExtractedOrdinal.mk (strBytes "image/png") [9] 0 0 [1] 0,
                 ExtractedOrdinal.mk (strBytes "text/x") [] 0 1 [1] 0,
                 ExtractedOrdinal.mk (strBytes "text/x") [104] 0 2 [1] 0])
              0)]
          (300 * 1000))
        [1] FmtOpt.file
      = (Except.ok [[104]],
         SimpleCache.mk
           [([1],
             CacheEntry.mk
               (TransactionCache.mk (TransactionWithOrdinal.mk [1] none)
                 [ExtractedOrdinal.mk (strBytes "image/png") [9] 0 0 [1] 0,
                  ExtractedOrdinal.mk (strBytes "text/x") [] 0 1 [1] 0,
                  ExtractedOrdinal.mk (strBytes "text/x") [104] 0 2 [1] 0])
               0)]
           (300 * 1000),
         []) ∧
    decodeWitness (E := Nat) id (fun _ => Except.ok (BlockstreamTx.mk [8] []))
        (Collab.mk (J := Unit) (fun _ => none) (fun _ => []) (fun _ => [])
          (fun _ _ _ _ => Except.error ()))
        0 (SimpleCache.create TransactionCache 300) [2] FmtOpt.base64
      = (Except.ok [],
         SimpleCache.mk
           [([2],
             CacheEntry.mk
               (TransactionCache.mk (TransactionWithOrdinal.mk [8] none) []) 0)]
           (300 * 1000),
         [[2]]) := by
  constructor
  · exact ((decode_witness_keeps_only_truthy_formats Nat Unit id
      (fun _ => Except.error 3)
      (Collab.mk (fun _ => none) (fun _ => []) (fun _ => [])
        (fun _ _ _ _ => Except.error ()))
      0
      (SimpleCache.mk
        [([1],
          CacheEntry.mk
            (TransactionCache.mk (TransactionWithOrdinal.mk [1] none)
              [ExtractedOrdinal.mk (strBytes "image/png") [9] 0 0 [1] 0,
               ExtractedOrdinal.mk (strBytes "text/x") [] 0 1 [1] 0,
               ExtractedOrdinal.mk (strBytes "text/x") [104] 0 2 [1] 0])
            0)]
        (300 * 1000))
      (SimpleCache.mk
        [([1],
          CacheEntry.mk
            (TransactionCache.mk (TransactionWithOrdinal.mk [1] none)
              [ExtractedOrdinal.mk (strBytes "image/png") [9] 0 0 [1] 0,
               ExtractedOrdinal.mk (strBytes "text/x") [] 0 1 [1] 0,
               ExtractedOrdinal.mk (strBytes "text/x") [104] 0 2 [1] 0])
            0)]
        (300 * 1000))
      [1] FmtOpt.file
      (TransactionCache.mk (TransactionWithOrdinal.mk [1] none)
        [ExtractedOrdinal.mk (strBytes "image/png") [9] 0 0 [1] 0,
         ExtractedOrdinal.mk (strBytes "text/x") [] 0 1 [1] 0,
         ExtractedOrdinal.mk (strBytes "text/x") [104] 0 2 [1] 0])
      (BlockstreamTx.mk [] [])).1 rfl).1
  · exact (decode_witness_keeps_only_truthy_formats Nat Unit id
      (fun _ => Except.ok (BlockstreamTx.mk [8] []))
      (Collab.mk (fun _ => none) (fun _ => []) (fun _ => [])
        (fun _ _ _ _ => Except.error ()))
      0 (SimpleCache.create TransactionCache 300)
      (SimpleCache.create TransactionCache 300) [2] FmtOpt.base64
      (TransactionCache.mk (TransactionWithOrdinal.mk [] none) [])
      (BlockstreamTx.mk [8] [])).2 rfl rfl (by decide)
